import Mathlib

/-!
Verification development for the sam206 vector/iterator demo (src/main.cpp).

The collection `vector<int>` is embedded as `List Int`.  Each container or
algorithm operation used by the program is embedded as a Lean function named
after its C++ counterpart, and the driver's successive collection states are
spelled out as definitions `ages_vector0` .. `ages_vector5`.
-/

/-- `vect.push_back x` : append one element at the back. -/
def push_back (v : List Int) (x : Int) : List Int := v ++ [x]

/-- `vect.clear()` : discard all elements. -/
def clear (_v : List Int) : List Int := []

/-- `populate_vector` (src/main.cpp:238-245): clear, then push back 18, 17, 21, 18, 21. -/
def populate_vector (vect : List Int) : List Int :=
  push_back (push_back (push_back (push_back (push_back (clear vect) 18) 17) 21) 18) 21

/-- The loop body of `display` (src/main.cpp:226-236): walk the elements in index
order; before every element with index `i ≠ 0` print `","`, then print the element. -/
def displayGo : List Int → Nat → String → String
  | [], _, acc => acc
  | x :: xs, i, acc =>
      displayGo xs (i + 1) ((if i ≠ 0 then acc ++ "," else acc) ++ toString x)

/-- `display` (src/main.cpp:226-236): the comma-separated line, ended by `endl`. -/
def display (v : List Int) : String := displayGo v 0 "" ++ "\n"

/-- `vect.pop_back()` : remove the last element. -/
def pop_back (v : List Int) : List Int := v.dropLast

/-- `vect.erase(vect.begin() + i)` : remove the element at index `i`; the iterator
returned by `erase` designates index `i` of the updated vector. -/
def erase (v : List Int) (i : Nat) : List Int := v.eraseIdx i

/-- The `is_even` lambda (src/main.cpp:199 and the test at line 150). -/
def is_even (i : Int) : Bool := i % 2 == 0

/-- The erase-even loop of src/main.cpp:148-154, with the iterator embedded as an
index `iter` into the current vector: while `iter` has not reached the end, erase
the element there if it is even (continuing from the iterator `erase` returns,
i.e. the same index), otherwise advance the iterator. -/
def removeEvenLoop (v : List Int) (iter : Nat) : List Int :=
  if h : iter < v.length then
    if is_even (v.get ⟨iter, h⟩) then
      removeEvenLoop (erase v iter) iter
    else
      removeEvenLoop v (iter + 1)
  else v
termination_by v.length - iter
decreasing_by
  · simp only [erase, List.length_eraseIdx, h, if_pos]
    omega
  · omega

/-- Fuel-indexed variant of the erase-even loop, used to state termination:
`none` means the fuel ran out before the iterator reached the end. -/
def removeEvenFuel : Nat → List Int → Nat → Option (List Int)
  | 0, _, _ => none
  | fuel + 1, v, iter =>
    if h : iter < v.length then
      if is_even (v.get ⟨iter, h⟩) then removeEvenFuel fuel (erase v iter) iter
      else removeEvenFuel fuel v (iter + 1)
    else some v

/-- `count(cbegin, cend, a)` over the whole vector. -/
def countVal (v : List Int) (a : Int) : Nat := v.count a

/-- `count_if(begin, end, p)` over the whole vector. -/
def count_if (v : List Int) (p : Int → Bool) : Nat := v.countP p

/-- `all_of(cbegin, cend, p)` over the whole vector. -/
def all_of (v : List Int) (p : Int → Bool) : Bool := v.all p

/-- `none_of(cbegin, cend, p)` over the whole vector: no element satisfies `p`. -/
def none_of (v : List Int) (p : Int → Bool) : Bool := v.all (fun x => ! p x)

/-- `find(begin, end, a)`: the iterator to the first element equal to `a`,
embedded as an index; it equals `v.length` (the end iterator) when no match. -/
def findIter (v : List Int) (a : Int) : Nat := v.findIdx (fun x => x == a)

/-- `find_if(begin, end, p)`: index of the first element satisfying `p`,
or `v.length` when none does. -/
def find_if (v : List Int) (p : Int → Bool) : Nat := v.findIdx p

/-- State of `ages_vector` right after the first `populate_vector` (line 41). -/
def ages_vector0 : List Int := populate_vector []

/-- State after the guarded `pop_back` (lines 116-119). -/
def ages_vector1 : List Int := pop_back ages_vector0

/-- State after erasing the third element (line 129). -/
def ages_vector2 : List Int := erase ages_vector1 2

/-- State after the second `populate_vector` (line 135). -/
def ages_vector3 : List Int := populate_vector ages_vector2

/-- State after the erase-even loop (lines 148-154). -/
def ages_vector4 : List Int := removeEvenLoop ages_vector3 0

/-- State after the third `populate_vector` (line 159). -/
def ages_vector5 : List Int := populate_vector ages_vector4

/-- `lottoDraw` (line 210). -/
def lottoDraw : List Int := [2, 10, 13, 22, 35, 47]

/-- `myNumbers` (line 211). -/
def myNumbers : List Int := [2, 10, 13, 22, 35, 47]

/-! ### General lemmas about the embedded operations -/

/-- The erase-even loop computes: keep the first `i` elements untouched, and from
position `i` onwards keep exactly the elements that are not even. -/
theorem removeEvenLoop_spec (v : List Int) (i : Nat) :
    removeEvenLoop v i = v.take i ++ (v.drop i).filter (fun x => ! is_even x) := by
  induction v, i using removeEvenLoop.induct with
  | case1 v i h heven ih =>
    rw [removeEvenLoop, dif_pos h, if_pos heven, ih]
    have hl : (v.take i).length = i := by
      simp [List.length_take, Nat.min_eq_left (Nat.le_of_lt h)]
    rw [erase, List.eraseIdx_eq_take_drop_succ, List.take_left' hl, List.drop_left' hl]
    conv_rhs => rw [List.drop_eq_getElem_cons h, List.filter_cons]
    simp only [List.get_eq_getElem] at heven
    simp [heven]
  | case2 v i h heven ih =>
    rw [removeEvenLoop, dif_pos h, if_neg heven, ih]
    simp only [List.get_eq_getElem, Bool.not_eq_true] at heven
    conv_rhs => rw [List.drop_eq_getElem_cons h, List.filter_cons]
    simp only [heven, Bool.not_false, if_true]
    conv_lhs => rw [List.take_succ, List.getElem?_eq_getElem h]
    rw [List.append_assoc]
    rfl
  | case3 v i h =>
    rw [removeEvenLoop, dif_neg h]
    rw [List.take_of_length_le (Nat.le_of_not_lt h), List.drop_eq_nil_of_le (Nat.le_of_not_lt h)]
    simp

/-- From any non-zero index on, the display loop is the comma-prepending
accumulator loop of `String.intercalate`. -/
theorem displayGo_go (v : List Int) : ∀ (i : Nat) (acc : String), i ≠ 0 →
    displayGo v i acc = String.intercalate.go acc "," (v.map toString) := by
  induction v with
  | nil => intro i acc _; simp [displayGo, String.intercalate.go]
  | cons x xs ih =>
    intro i acc hi
    rw [displayGo, if_pos hi, List.map_cons]
    exact ih (i + 1) (acc ++ "," ++ toString x) (Nat.succ_ne_zero i)

/-- `display` renders the elements in order, comma-separated with no leading or
trailing separator, followed by a newline. -/
theorem display_intercalate (v : List Int) :
    display v = String.intercalate "," (v.map toString) ++ "\n" := by
  cases v with
  | nil => rfl
  | cons x xs =>
    rw [display, displayGo, if_neg (by simp : ¬((0 : Nat) ≠ 0))]
    rw [displayGo_go xs 1 ("" ++ toString x) one_ne_zero]
    rfl

/-- A fuel bound of `v.length - i + 1` always suffices for the erase-even loop. -/
theorem removeEvenFuel_eq (fuel : Nat) : ∀ (v : List Int) (i : Nat), v.length - i < fuel →
    removeEvenFuel fuel v i = some (removeEvenLoop v i) := by
  induction fuel with
  | zero => intro v i h; omega
  | succ f ih =>
    intro v i h
    rw [removeEvenFuel, removeEvenLoop]
    by_cases hlt : i < v.length
    · rw [dif_pos hlt, dif_pos hlt]
      by_cases he : is_even (v.get ⟨i, hlt⟩)
      · rw [if_pos he, if_pos he]
        apply ih
        simp only [erase, List.length_eraseIdx, hlt, if_pos]
        omega
      · rw [if_neg he, if_neg he]
        apply ih
        omega
    · rw [dif_neg hlt, dif_neg hlt]

/-! ### Claim theorems -/

/-- C1 counterexample: the erase-even loop on the populated collection
`[18,17,21,18,21]` does not yield `[17,21]` (it keeps both odd 21s: the result
is `[17,21,21]`). -/
theorem remove_even_not_17_21 : ¬ (removeEvenLoop (populate_vector []) 0 = [17, 21]) := by
  rw [removeEvenLoop_spec]
  decide

/-- C1 (amended): the remove-even-elements iteration of driver step 10 applied
to the collection produced by Populate (`[18,17,21,18,21]`) yields exactly
`[17,21,21]`, preserving the relative order of the surviving elements. -/
theorem remove_even_result :
    removeEvenLoop (populate_vector []) 0 = [17, 21, 21] ∧
    List.Sublist ([17, 21, 21] : List Int) (populate_vector []) := by
  refine ⟨?_, by decide⟩
  rw [removeEvenLoop_spec]
  decide

/-- C2: for every prior contents, Populate leaves the collection equal to
`[18,17,21,18,21]`, so its length is exactly 5 after every call. -/
theorem populate_vector_resets : ∀ prior : List Int,
    populate_vector prior = [18, 17, 21, 18, 21] ∧ (populate_vector prior).length = 5 :=
  fun _ => ⟨rfl, rfl⟩

/-- C3: Display produces one line, the elements in order separated by `,` with
no leading or trailing separator, terminated by a newline; in particular it
prints `"18,17,21,18,21\n"` for the populated collection and an empty line for
the empty collection. -/
theorem display_format :
    (∀ v : List Int, display v = String.intercalate "," (v.map toString) ++ "\n") ∧
    display ages_vector0 = "18,17,21,18,21\n" ∧
    display ([] : List Int) = "\n" :=
  ⟨display_intercalate, by decide, rfl⟩

/-- C4: each removal operation used by the driver (pop_back, erase at an index,
and the erases inside the remove-even loop) keeps the untouched elements in
their original relative order — pop_back deletes exactly the last element,
erase at index `i` yields the prefix before `i` followed by the suffix after
`i`, every erase result is a sublist of the original, the erase-even loop's
result is a sublist of its input — and the size is always ≥ 0. -/
theorem removal_preserves_order :
    (∀ (l : List Int) (x : Int), pop_back (l ++ [x]) = l) ∧
    (∀ (l : List Int) (i : Nat), i < l.length → erase l i = l.take i ++ l.drop (i + 1)) ∧
    (∀ (l : List Int) (i : Nat), List.Sublist (erase l i) l) ∧
    (∀ v : List Int, List.Sublist (removeEvenLoop v 0) v) ∧
    (∀ v : List Int, 0 ≤ v.length) := by
  refine ⟨?_, ?_, ?_, ?_, ?_⟩
  · intro l x
    exact List.dropLast_concat
  · intro l i _
    exact List.eraseIdx_eq_take_drop_succ l i
  · intro l i
    exact List.eraseIdx_sublist l i
  · intro v
    rw [removeEvenLoop_spec]
    simp
  · intro v
    exact Nat.zero_le _

/-- C4 witness: instantiating the erase clause at `[5,6]`, index 0. -/
theorem removal_preserves_order_witness :
    (0 : Nat) < ([5, 6] : List Int).length ∧
    erase ([5, 6] : List Int) 0 = ([5, 6] : List Int).take 0 ++ ([5, 6] : List Int).drop 1 :=
  ⟨by decide, removal_preserves_order.2.1 [5, 6] 0 (by decide)⟩

/-- C5: in the driver's fixed run the unchecked operations are in bounds: when
the marker at the first element is dereferenced and then advanced and
dereferenced again the collection has size ≥ 2 and the two values printed are
18 and then 17, and when the element at index 2 is erased the collection has
size ≥ 3. -/
theorem driver_unchecked_ops_safe :
    2 ≤ ages_vector0.length ∧
    ages_vector0.getD 0 0 = 18 ∧
    ages_vector0.getD 1 0 = 17 ∧
    3 ≤ ages_vector1.length := by
  decide

/-- C6: over the full populated collection, counting elements equal to 21
returns 2 and counting elements strictly less than 18 returns 1. -/
theorem count_results :
    countVal ages_vector0 21 = 2 ∧
    count_if ages_vector0 (fun i => decide (i < 18)) = 1 := by
  decide

/-- C7: "all elements > 16" is true over the repopulated collection
`[18,17,21,18,21]` and false over any collection containing a value ≤ 16;
"no elements < 17" is true over `[18,17,21,18,21]`. -/
theorem all_none_results :
    all_of ages_vector5 (fun i => decide (i > 16)) = true ∧
    (∀ (v : List Int) (x : Int), x ∈ v → x ≤ 16 →
      all_of v (fun i => decide (i > 16)) = false) ∧
    none_of ages_vector5 (fun i => decide (i < 17)) = true := by
  refine ⟨by decide, ?_, by decide⟩
  intro v x hmem hle
  rw [all_of, List.all_eq_false]
  refine ⟨x, hmem, ?_⟩
  simp only [decide_eq_true_eq]
  omega

/-- C7 witness: the all-elements clause fails on `[10]`, which contains 10 ≤ 16. -/
theorem all_none_results_witness :
    (10 : Int) ∈ ([10] : List Int) ∧ (10 : Int) ≤ 16 ∧
    all_of ([10] : List Int) (fun i => decide (i > 16)) = false :=
  ⟨by decide, by decide, all_none_results.2.1 [10] 10 (by decide) (by decide)⟩

/-- C8: the first-match search reports found exactly when the returned marker
is not the end position, which happens iff the value occurs; searching for 17
in the repopulated collection succeeds (the marker is before the end and
designates a 17), and searching for 99 returns the end position. -/
theorem find_results :
    (∀ (v : List Int) (a : Int), findIter v a ≠ v.length ↔ a ∈ v) ∧
    findIter ages_vector5 17 < ages_vector5.length ∧
    ages_vector5.getD (findIter ages_vector5 17) 0 = 17 ∧
    findIter ages_vector5 99 = ages_vector5.length := by
  refine ⟨?_, by decide, by decide, by decide⟩
  intro v a
  rw [findIter]
  constructor
  · intro hne
    have hle := @List.findIdx_le_length Int (fun x => x == a) v
    have hlt : v.findIdx (fun x => x == a) < v.length := lt_of_le_of_ne hle hne
    obtain ⟨x, hx, hbeq⟩ := List.findIdx_lt_length.mp hlt
    rwa [show x = a from by simpa using hbeq] at hx
  · intro hmem
    have hlt : v.findIdx (fun x => x == a) < v.length :=
      List.findIdx_lt_length.mpr ⟨a, hmem, by simp⟩
    omega

/-- C9: sequence equality is element-wise, order-sensitive and requires equal
lengths: the two independently constructed sequences `lottoDraw` and
`myNumbers` with contents `[2,10,13,22,35,47]` are equal; any sequence of a
different length differs; replacing any single element of `myNumbers` by a
different value breaks the equality; and swapping any two distinct positions
of `myNumbers` breaks the equality. -/
theorem vector_equality :
    lottoDraw = myNumbers ∧
    (∀ l : List Int, l.length ≠ myNumbers.length → lottoDraw ≠ l) ∧
    (∀ (i : Nat) (x : Int), i < myNumbers.length → x ≠ myNumbers.getD i 0 →
      lottoDraw ≠ myNumbers.set i x) ∧
    (∀ i < 6, ∀ j < 6, i ≠ j →
      lottoDraw ≠ (myNumbers.set i (myNumbers.getD j 0)).set j (myNumbers.getD i 0)) := by
  refine ⟨rfl, ?_, ?_, by decide⟩
  · intro l hlen heq
    apply hlen
    rw [← heq]
    rfl
  · intro i x hi hx heq
    apply hx
    have h2 := congrArg (fun l => l[i]?) heq
    simp only at h2
    rw [List.getElem?_set_self hi] at h2
    have h4 : myNumbers[i]? = some x := h2
    rw [List.getElem?_eq_getElem hi] at h4
    rw [← Option.some.inj h4]
    simp [List.getD_eq_getElem?_getD, List.getElem?_eq_getElem hi]

/-- C9 witness: changing element 0 of `myNumbers` to 3 breaks equality. -/
theorem vector_equality_witness :
    (0 : Nat) < myNumbers.length ∧ (3 : Int) ≠ myNumbers.getD 0 0 ∧
    lottoDraw ≠ myNumbers.set 0 3 :=
  ⟨by decide, by decide, vector_equality.2.2.1 0 3 (by decide) (by decide)⟩

/-- C10: the erase-even loop terminates on every finite collection: each
iteration either erases (shrinking the vector) or advances the marker, so the
distance from the marker to the end strictly decreases and any fuel exceeding
it makes the fuel-indexed loop return (with the same result as the loop). -/
theorem remove_even_terminates :
    ∀ (v : List Int) (i fuel : Nat), v.length - i < fuel →
      removeEvenFuel fuel v i = some (removeEvenLoop v i) :=
  fun v i fuel h => removeEvenFuel_eq fuel v i h

/-- C10 witness: fuel 6 suffices for the populated collection from the start. -/
theorem remove_even_terminates_witness :
    ([18, 17, 21, 18, 21] : List Int).length - 0 < 6 ∧
    removeEvenFuel 6 [18, 17, 21, 18, 21] 0 = some (removeEvenLoop [18, 17, 21, 18, 21] 0) :=
  ⟨by decide, remove_even_terminates [18, 17, 21, 18, 21] 0 6 (by decide)⟩
